import Mathlib

/-!
# Verification of the RSS-to-ICS event parser (`4SP_RSSCAL_v3.py`)

Shallow embedding of the core of the repository: the date/time parser
`parse_event_datetime` (regex search + `datetime.strptime` + attaching the
`America/Montreal` timezone) and the batch loop of `generate_calendar`.

Texts are modelled as `List Char` (Python `str` is a sequence of code points).

## The regular expression

The source compiles (line 53-56):

  `([A-Za-z]+ \d{1,2}, \d{4}),\s*(\d{1,2}(?::\d{2})?)\s*([ap])\.m\.\s*[SEP]\s*(\d{1,2}(?::\d{2})?)\s*([ap])\.m\.`

where the character class `[SEP]` contains, per the raw bytes of the file
(UTF-8 `c3 a2`, `e2 82 ac`, `e2 80 9c`, `2d`), the four characters
U+00E2, U+20AC, U+201C and the hyphen.  The class therefore
matches any one of those characters; it contains neither the en-dash U+2013
nor a multi-character sequence.

The matcher below reproduces Python `re.search` semantics for this pattern:
leftmost match, greedy quantifiers with backtracking.  Choice points whose
alternatives are tried via explicit fallthrough (`match … with some r => some r
| none => next`) implement the backtracking of `\d{1,2}` and `(?::\d{2})?`
faithfully, with the full continuation of the pattern passed as `k`.
The greedy `\s*`, and `[A-Za-z]+` followed by a literal space, are committed
maximally: shrinking a maximal run leaves a character of the same class to be
matched by the following token, which never accepts that class, so no match is
lost (the token after every `\s*` is a digit, `[ap]` or the separator class, and
the token after the letter run is a literal space).

The model restricts `\d` and the case-insensitive month matching to ASCII,
which covers every input relevant to the claims.
-/

/-- `[A-Za-z]`, as in the regex (code points 65-90 and 97-122). -/
def isAsciiLetter (c : Char) : Bool :=
  (65 ≤ c.toNat && c.toNat ≤ 90) || (97 ≤ c.toNat && c.toNat ≤ 122)

/-- `\d` (ASCII part, code points 48-57). -/
def isDigitC (c : Char) : Bool :=
  48 ≤ c.toNat && c.toNat ≤ 57

/-- Python `\s` for `str` patterns: ASCII whitespace plus the Unicode
whitespace code points recognised by `re`. -/
def isPySpace (c : Char) : Bool :=
  (9 ≤ c.toNat && c.toNat ≤ 13) || c.toNat == 32 ||
  (28 ≤ c.toNat && c.toNat ≤ 31) || c.toNat == 0x85 || c.toNat == 0xa0 ||
  c.toNat == 0x1680 || (0x2000 ≤ c.toNat && c.toNat ≤ 0x200a) ||
  c.toNat == 0x2028 || c.toNat == 0x2029 || c.toNat == 0x202f ||
  c.toNat == 0x205f || c.toNat == 0x3000

/-- U+00E2 (`LATIN SMALL LETTER A WITH CIRCUMFLEX`), first character of the
mojibake rendering of an en-dash. -/
def mojibakeA : Char := Char.ofNat 0xE2

/-- U+20AC (`EURO SIGN`), second mojibake character. -/
def mojibakeEuro : Char := Char.ofNat 0x20AC

/-- U+201C (`LEFT DOUBLE QUOTATION MARK`), third mojibake character. -/
def mojibakeQuote : Char := Char.ofNat 0x201C

/-- U+2013, the literal en-dash (NOT part of the regex character class). -/
def enDash : Char := Char.ofNat 0x2013

/-- The separator character class of the regex, whose raw bytes decode to the
three mojibake characters and the hyphen. -/
def isSepChar (c : Char) : Bool :=
  c == mojibakeA || c == mojibakeEuro || c == mojibakeQuote || c == '-'

/-- Numeric value of a digit character. -/
def digitVal (c : Char) : Nat := c.toNat - 48

/-- Value of a string of decimal digits (`int`). -/
def natOfDigits (l : List Char) : Nat :=
  l.foldl (fun a c => 10 * a + digitVal c) 0

/-- The five capture groups of the match.  Group 1 of the Python regex is the
concatenation `monthName ++ " " ++ dayStr ++ ", " ++ yearStr` (the literal
separators inside the group are fixed by the pattern). -/
structure MatchGroups where
  monthName : List Char
  dayStr : List Char
  yearStr : List Char
  startTime : List Char
  startAp : Char
  endTime : List Char
  endAp : Char
deriving DecidableEq, Repr

/-- `\d{1,2}` followed by the continuation `k` (which receives the captured
digits and the rest of the input).  Greedy: two digits are tried first and the
one-digit alternative is tried when the continuation fails, exactly as the
backtracking regex engine does. -/
def matchDigits12 {α : Type} (k : List Char → List Char → Option α) :
    List Char → Option α
  | [] => none
  | c1 :: rest1 =>
    if isDigitC c1 then
      match rest1 with
      | c2 :: rest2 =>
        if isDigitC c2 then
          match k [c1, c2] rest2 with
          | some r => some r
          | none => k [c1] rest1
        else k [c1] rest1
      | [] => k [c1] rest1
    else none

/-- The one-digit alternatives of `\d{1,2}(?::\d{2})?`: hour digit `c1`
already consumed, `rest1` the input after it; try the minutes part, then
without it. -/
def matchTime1 {α : Type} (k : List Char → List Char → Option α) (c1 : Char)
    (rest1 : List Char) : Option α :=
  match rest1 with
  | c :: m1 :: m2 :: rest2 =>
    if c == ':' && isDigitC m1 && isDigitC m2 then
      match k [c1, ':', m1, m2] rest2 with
      | some r => some r
      | none => k [c1] rest1
    else k [c1] rest1
  | _ => k [c1] rest1

/-- The two-digit-no-minutes alternative, falling back to the one-digit
alternatives. -/
def matchTime2 {α : Type} (k : List Char → List Char → Option α) (c1 c2 : Char)
    (rest1 rest2 : List Char) : Option α :=
  match k [c1, c2] rest2 with
  | some r => some r
  | none => matchTime1 k c1 rest1

/-- `\d{1,2}(?::\d{2})?` followed by the continuation `k`.  The four
alternatives are tried in the order of the backtracking engine:
two digits with minutes, two digits without, one digit with minutes,
one digit without. -/
def matchTimeGroup {α : Type} (k : List Char → List Char → Option α) :
    List Char → Option α
  | [] => none
  | c1 :: rest1 =>
    if isDigitC c1 then
      match rest1 with
      | c2 :: rest2 =>
        if isDigitC c2 then
          match rest2 with
          | c :: m1 :: m2 :: rest3 =>
            if c == ':' && isDigitC m1 && isDigitC m2 then
              match k [c1, c2, ':', m1, m2] rest3 with
              | some r => some r
              | none => matchTime2 k c1 c2 rest1 rest2
            else matchTime2 k c1 c2 rest1 rest2
          | _ => matchTime2 k c1 c2 rest1 rest2
        else matchTime1 k c1 rest1
      | [] => matchTime1 k c1 rest1
    else none

/-- End of the pattern, on the input with the `\s*` after the separator
already dropped: `([ap])\.m\.`. -/
def afterSepW (letters dayStr yearStr st : List Char) (a1 : Char)
    (et w : List Char) : Option MatchGroups :=
  match w with
  | a2 :: d1 :: mc :: d2 :: _ =>
    if (a2 == 'a' || a2 == 'p') && d1 == '.' && mc == 'm' && d2 == '.' then
      some ⟨letters, dayStr, yearStr, st, a1, et, a2⟩
    else none
  | _ => none

/-- Continuation after the separator and `\s*`: the end-time group, then
`\s*([ap])\.m\.`. -/
def afterSep (letters dayStr yearStr st : List Char) (a1 : Char)
    (et r14 : List Char) : Option MatchGroups :=
  afterSepW letters dayStr yearStr st a1 et (r14.dropWhile isPySpace)

/-- The separator class, `\s*`, then the end-time group, on the input with
the `\s*` after `\.m\.` already dropped. -/
def sepThenEnd (letters dayStr yearStr st : List Char) (a1 : Char)
    (w : List Char) : Option MatchGroups :=
  match w with
  | sep :: r12 =>
    if isSepChar sep then
      matchTimeGroup (afterSep letters dayStr yearStr st a1)
        (r12.dropWhile isPySpace)
    else none
  | [] => none

/-- `([ap])\.m\.` after the start time, on the input with `\s*` already
dropped, then the separator part via `sepThenEnd`. -/
def afterStartTimeW (letters dayStr yearStr : List Char)
    (st w : List Char) : Option MatchGroups :=
  match w with
  | a1 :: d1 :: mc :: d2 :: r10 =>
    if (a1 == 'a' || a1 == 'p') && d1 == '.' && mc == 'm' && d2 == '.' then
      sepThenEnd letters dayStr yearStr st a1 (r10.dropWhile isPySpace)
    else none
  | _ => none

/-- Continuation after the start-time group: `\s*`, then `afterStartTimeW`. -/
def afterStartTime (letters dayStr yearStr : List Char)
    (st r8 : List Char) : Option MatchGroups :=
  afterStartTimeW letters dayStr yearStr st (r8.dropWhile isPySpace)

/-- The literal `,` after group 1, `\s*`, then the start-time group. -/
def commaThenTimes (letters dayStr : List Char) (y1 y2 y3 y4 : Char)
    (r5 : List Char) : Option MatchGroups :=
  match r5 with
  | cm2 :: r6 =>
    if cm2 == ',' then
      matchTimeGroup (afterStartTime letters dayStr [y1, y2, y3, y4])
        (r6.dropWhile isPySpace)
    else none
  | [] => none

/-- Continuation after the day digits: `, \d{4}` closing group 1, then the
rest of the pattern via `commaThenTimes`. -/
def afterDay (letters dayStr r3 : List Char) : Option MatchGroups :=
  match r3 with
  | cm :: sp :: y1 :: y2 :: y3 :: y4 :: r5 =>
    if cm == ',' && sp == ' ' && isDigitC y1 && isDigitC y2 && isDigitC y3 &&
        isDigitC y4 then
      commaThenTimes letters dayStr y1 y2 y3 y4 r5
    else none
  | _ => none

/-- The literal space after the letter run, on the input with the letter run
already dropped, then the day digits via `afterDay`. -/
def spaceThenDay (letters w : List Char) : Option MatchGroups :=
  match w with
  | sp :: r2 =>
    if sp == ' ' then matchDigits12 (afterDay letters) r2
    else none
  | [] => none

/-- One attempt of the full pattern anchored at the start of `s`
(Python `re.match` at one position): `[A-Za-z]+` then the rest of the
pattern. -/
def matchAt (s : List Char) : Option MatchGroups :=
  if (s.takeWhile isAsciiLetter).isEmpty then none
  else spaceThenDay (s.takeWhile isAsciiLetter) (s.dropWhile isAsciiLetter)

/-- `re.search`: try the pattern at every position, leftmost first. -/
def searchGroups : List Char → Option MatchGroups
  | [] => none
  | c :: cs =>
    match matchAt (c :: cs) with
    | some g => some g
    | none => searchGroups cs

/-!
## `datetime.strptime` with format `"%B %d, %Y %I:%M %p"`

CPython's `_strptime` translates the format into a regular expression
(compiled with `IGNORECASE`):

  months-alternation `\s+` `(3[01]|[12]\d|0[1-9]|[1-9])` `,` `\s+` `(\d\d\d\d)`
  `\s+` `(1[0-2]|0[1-9]|[1-9])` `:` `([0-5]\d|\d)` `\s+` `(AM|PM)`

(whitespace in the format becomes `\s+`), requires the match to consume the
whole string, converts `%I`/`%p` to a 24-hour value, and finally constructs a
`datetime`, which validates the year range (1..9999) and the day against the
month length.  The month alternation is ordered by length, but no month name
is a prefix of another, so first-match lookup is equivalent.

As in the regex model, the two-digit alternatives of `%d`, `%I` and `%M` are
committed: when two digits are present the one-digit fallback always fails,
because the token following each of these directives (`,`, `:`, `\s+`) never
matches a digit, so committing loses no match.

The month table is a parameter: `%B` matches the month names of the process
`LC_TIME` locale (`LocaleTime` in `_strptime`).  `englishMonths` is the
C/POSIX (and `en_*`) table used for the main definitions.
-/

/-- Case-insensitive character code (ASCII model of `re.IGNORECASE`). -/
def lowerN (c : Char) : Nat :=
  if 65 ≤ c.toNat && c.toNat ≤ 90 then c.toNat + 32 else c.toNat

/-- Case-insensitive character equality. -/
def eqCI (a b : Char) : Bool := lowerN a == lowerN b

/-- Case-insensitive list equality. -/
def lowerEq : List Char → List Char → Bool
  | [], [] => true
  | a :: as_, b :: bs => eqCI a b && lowerEq as_ bs
  | _, _ => false

/-- Strip `name` (case-insensitively) from the front of the input. -/
def stripPrefixCI : List Char → List Char → Option (List Char)
  | [], s => some s
  | _ :: _, [] => none
  | p :: ps, c :: cs => if eqCI p c then stripPrefixCI ps cs else none

/-- Month-name alternation: first name (1-based index) that matches a prefix
of the input case-insensitively. -/
def matchBAux : Nat → List (List Char) → List Char → Option (Nat × List Char)
  | _, [], _ => none
  | i, name :: rest, s =>
    match stripPrefixCI name s with
    | some r => some (i, r)
    | none => matchBAux (i + 1) rest s

/-- `%B`. -/
def matchB (months : List (List Char)) (s : List Char) : Option (Nat × List Char) :=
  matchBAux 1 months s

/-- `\s+` (from whitespace in the format string): at least one whitespace
character, consumed greedily. -/
def matchWS : List Char → Option (List Char)
  | [] => none
  | c :: cs => if isPySpace c then some (cs.dropWhile isPySpace) else none

/-- A literal character of the format. -/
def matchLit (c : Char) : List Char → Option (List Char)
  | [] => none
  | x :: xs => if x == c then some xs else none

/-- `%d`: `(3[01]|[12]\d|0[1-9]|[1-9])`. -/
def matchD : List Char → Option (Nat × List Char)
  | [] => none
  | [c1] => if 49 ≤ c1.toNat && c1.toNat ≤ 57 then some (digitVal c1, []) else none
  | c1 :: c2 :: rest =>
    if isDigitC c1 && isDigitC c2 then
      if (c1 == '3' && (c2 == '0' || c2 == '1')) || c1 == '1' || c1 == '2' ||
          (c1 == '0' && c2 != '0') then
        some (natOfDigits [c1, c2], rest)
      else none
    else if 49 ≤ c1.toNat && c1.toNat ≤ 57 then some (digitVal c1, c2 :: rest)
    else none

/-- `%I`: `(1[0-2]|0[1-9]|[1-9])`. -/
def matchI : List Char → Option (Nat × List Char)
  | [] => none
  | [c1] => if 49 ≤ c1.toNat && c1.toNat ≤ 57 then some (digitVal c1, []) else none
  | c1 :: c2 :: rest =>
    if isDigitC c1 && isDigitC c2 then
      if (c1 == '1' && (c2 == '0' || c2 == '1' || c2 == '2')) ||
          (c1 == '0' && c2 != '0') then
        some (natOfDigits [c1, c2], rest)
      else none
    else if 49 ≤ c1.toNat && c1.toNat ≤ 57 then some (digitVal c1, c2 :: rest)
    else none

/-- `%M`: `([0-5]\d|\d)`. -/
def matchM : List Char → Option (Nat × List Char)
  | [] => none
  | [c1] => if isDigitC c1 then some (digitVal c1, []) else none
  | c1 :: c2 :: rest =>
    if isDigitC c1 && isDigitC c2 then
      if 48 ≤ c1.toNat && c1.toNat ≤ 53 then some (natOfDigits [c1, c2], rest)
      else none
    else if isDigitC c1 then some (digitVal c1, c2 :: rest)
    else none

/-- `%Y`: `(\d\d\d\d)`. -/
def matchY : List Char → Option (Nat × List Char)
  | y1 :: y2 :: y3 :: y4 :: rest =>
    if isDigitC y1 && isDigitC y2 && isDigitC y3 && isDigitC y4 then
      some (natOfDigits [y1, y2, y3, y4], rest)
    else none
  | _ => none

/-- `%p`: `(AM|PM)`, case-insensitive; `true` means PM. -/
def matchP : List Char → Option (Bool × List Char)
  | a :: m :: rest =>
    if eqCI a 'A' && eqCI m 'M' then some (false, rest)
    else if eqCI a 'P' && eqCI m 'M' then some (true, rest)
    else none
  | _ => none

/-- Result of a successful match of the compiled format regex. -/
structure FmtRes where
  y : Nat
  mo : Nat
  d : Nat
  h12 : Nat
  mi : Nat
  pm : Bool
  rest : List Char
deriving DecidableEq, Repr

/-- The compiled format regex: the directives in sequence, failing when any
token fails. -/
def runFmt (months : List (List Char)) (s : List Char) : Option FmtRes :=
  (matchB months s).bind (fun bo =>
  (matchWS bo.2).bind (fun s2 =>
  (matchD s2).bind (fun dd =>
  (matchLit ',' dd.2).bind (fun s4 =>
  (matchWS s4).bind (fun s5 =>
  (matchY s5).bind (fun yy =>
  (matchWS yy.2).bind (fun s7 =>
  (matchI s7).bind (fun hh =>
  (matchLit ':' hh.2).bind (fun s9 =>
  (matchM s9).bind (fun mm =>
  (matchWS mm.2).bind (fun s11 =>
  (matchP s11).map (fun pp =>
    ⟨yy.1, bo.1, dd.1, hh.1, mm.1, pp.1, pp.2⟩))))))))))))

/-- Gregorian leap year (as in `datetime`). -/
def isLeap (y : Nat) : Bool := y % 4 == 0 && (y % 100 != 0 || y % 400 == 0)

/-- Days in a month (as in `datetime`). -/
def daysInMonth (y m : Nat) : Nat :=
  if m == 2 then (if isLeap y then 29 else 28)
  else if m == 4 || m == 6 || m == 9 || m == 11 then 30
  else 31

/-- `_strptime`'s 12-hour to 24-hour conversion: PM adds 12 except at 12,
AM maps 12 to 0. -/
def hour24 (h : Nat) (pm : Bool) : Nat :=
  if pm then (if h != 12 then h + 12 else h) else (if h == 12 then 0 else h)

/-- A naive `datetime` (no timezone). -/
structure PTime where
  year : Nat
  month : Nat
  day : Nat
  hour : Nat
  minute : Nat
deriving DecidableEq, Repr

/-- Single-quote character, built by code to keep the message strings plain. -/
def quoteC : Char := Char.ofNat 39

/-- The format string of the source. -/
def fmtChars : List Char := "%B %d, %Y %I:%M %p".data

/-- `ValueError` message of `_strptime` when the format regex does not match. -/
def timeDataMsg (s : List Char) : List Char :=
  "time data ".data ++ quoteC :: s ++ quoteC :: " does not match format ".data ++
    quoteC :: fmtChars ++ [quoteC]

/-- `ValueError` message when input remains after the match. -/
def unconvMsg (r : List Char) : List Char :=
  "unconverted data remains: ".data ++ quoteC :: r ++ [quoteC]

/-- `ValueError` message of the `datetime` constructor for a bad day
(CPython C implementation). -/
def dayRangeMsg : List Char := "day is out of range for month".data

/-- `ValueError` message of the `datetime` constructor for a bad year. -/
def yearRangeMsg (y : Nat) : List Char :=
  "year ".data ++ (toString y).data ++ " is out of range".data

/-- `datetime.strptime(s, "%B %d, %Y %I:%M %p")`: `.error` is the message of
the raised `ValueError`. -/
def strptimeFmt (months : List (List Char)) (s : List Char) :
    Except (List Char) PTime :=
  match runFmt months s with
  | none => Except.error (timeDataMsg s)
  | some t =>
    if t.rest.isEmpty then
      if t.y < 1 || 9999 < t.y then Except.error (yearRangeMsg t.y)
      else if t.d < 1 || daysInMonth t.y t.mo < t.d then Except.error dayRangeMsg
      else Except.ok ⟨t.y, t.mo, t.d, hour24 t.h12 t.pm, t.mi⟩
    else Except.error (unconvMsg t.rest)

/-- Month names of the C/POSIX and English locales (`calendar.month_name`),
lowercase (matching is case-insensitive). -/
def englishMonths : List (List Char) :=
  ["january".data, "february".data, "march".data, "april".data, "may".data,
   "june".data, "july".data, "august".data, "september".data, "october".data,
   "november".data, "december".data]

/-- Month names of a French locale (`LC_TIME=fr_FR`): what `%B` matches when
the process runs under that locale. -/
def frenchMonths : List (List Char) :=
  ["janvier".data, "février".data, "mars".data, "avril".data, "mai".data,
   "juin".data, "juillet".data, "août".data, "septembre".data, "octobre".data,
   "novembre".data, "décembre".data]

/-!
## `parse_event_datetime`

Lines 47-84 of the source: search the text, normalise the two time tokens
(append `":00"` when no `:` is present), compose
`f"{date_str} {time} {ampm.upper()}M"` for both sides, parse both with
`strptime`, and attach `ZoneInfo("America/Montreal")` via `replace(tzinfo=…)`,
which tags the timestamp without changing any field.  On a `ValueError` the
handler logs `f"Error parsing datetime: {e}"` and returns `(None, None)`.
The `_log` variants also return the list of logged warning messages.
-/

/-- A timezone-aware `datetime` (fields unchanged by `replace(tzinfo=…)`,
plus the zone key). -/
structure ZonedDateTime where
  year : Nat
  month : Nat
  day : Nat
  hour : Nat
  minute : Nat
  tz : String
deriving DecidableEq, Repr

/-- `if ':' not in t: t += ':00'` (lines 62-66); `':' in t` is membership of
the character. -/
def addMissingMinutes (t : List Char) : List Char :=
  if t.any (fun c => c == ':') then t else t ++ [':', '0', '0']

/-- Group 1 of the regex, as the Python code receives it. -/
def dateStrOf (g : MatchGroups) : List Char :=
  g.monthName ++ ' ' :: (g.dayStr ++ ',' :: ' ' :: g.yearStr)

/-- `f"{date_str} {time} {ampm.upper()}M"`. -/
def composeSide (dateStr time : List Char) (ap : Char) : List Char :=
  dateStr ++ ' ' :: (addMissingMinutes time ++ ' ' :: [ap.toUpper, 'M'])

/-- `replace(tzinfo=ZoneInfo("America/Montreal"))`. -/
def withMontreal (p : PTime) : ZonedDateTime :=
  ⟨p.year, p.month, p.day, p.hour, p.minute, "America/Montreal"⟩

/-- Prefix of the logged warning (line 83). -/
def warnPrefix : List Char := "Error parsing datetime: ".data

/-- Lines 60-84, applied to the captured groups: compose the two date-time
strings, parse both, tag with the timezone; on failure return `(None, None)`
and the logged warning. -/
def handleGroups (months : List (List Char)) (g : MatchGroups) :
    (Option ZonedDateTime × Option ZonedDateTime) × List (List Char) :=
  match strptimeFmt months (composeSide (dateStrOf g) g.startTime g.startAp) with
  | Except.error e => ((none, none), [warnPrefix ++ e])
  | Except.ok sdt =>
    match strptimeFmt months (composeSide (dateStrOf g) g.endTime g.endAp) with
    | Except.error e => ((none, none), [warnPrefix ++ e])
    | Except.ok edt => ((some (withMontreal sdt), some (withMontreal edt)), [])

/-- `parse_event_datetime`, parameterised by the locale month table and
returning the logged warnings alongside the result. -/
def parse_event_datetime_log_loc (months : List (List Char)) (text : List Char) :
    (Option ZonedDateTime × Option ZonedDateTime) × List (List Char) :=
  match searchGroups text with
  | none => ((none, none), [])
  | some g => handleGroups months g

/-- `parse_event_datetime` under a given locale month table. -/
def parse_event_datetime_loc (months : List (List Char)) (text : List Char) :
    Option ZonedDateTime × Option ZonedDateTime :=
  (parse_event_datetime_log_loc months text).1

/-- `parse_event_datetime` (lines 47-84) under the C/English locale. -/
def parse_event_datetime (text : List Char) :
    Option ZonedDateTime × Option ZonedDateTime :=
  parse_event_datetime_loc englishMonths text

/-- `parse_event_datetime` together with its logged warnings. -/
def parse_event_datetime_log (text : List Char) :
    (Option ZonedDateTime × Option ZonedDateTime) × List (List Char) :=
  parse_event_datetime_log_loc englishMonths text

/-!
## `generate_calendar` (lines 97-124)

The loop iterates the feed entries in order; for each entry it extracts the
summary text (BeautifulSoup, modelled as already-extracted text on the entry),
parses it, and either adds a new `Event` to the calendar and increments
`events_processed`, or increments `events_skipped`.  `calendar.events` in the
`ics` API the code targets (`.add`) is a Python `set`, an unordered
collection, so it is modelled as a `Multiset`: membership and multiplicity
are properties of the program, iteration order is not.  The `ics` library
generates a fresh uid per `Event`, so every `add` call inserts an element
distinct from all present ones; the model therefore inserts unconditionally
(the uid is not part of the modelled event record).  The per-entry
`try/except` has no failing operations in the model.
-/

/-- A feed entry as the loop consumes it: `entry.title`, the text extracted
from `entry.summary`, and `entry.link`. -/
structure RawEntry where
  title : String
  summaryText : List Char
  link : String
deriving DecidableEq, Repr

/-- An `ics.Event` as populated by the loop (lines 113-118). -/
structure CalendarEvent where
  name : String
  description : List Char
  url : String
  beginT : ZonedDateTime
  endT : ZonedDateTime
deriving DecidableEq, Repr

/-- The body of the loop for one entry: `calendar.events.add` on success
(inserting into the unordered collection), skip count on failure. -/
def processEntry (acc : Multiset CalendarEvent × Nat × Nat) (entry : RawEntry) :
    Multiset CalendarEvent × Nat × Nat :=
  match parse_event_datetime entry.summaryText with
  | (some s, some e) =>
    ((⟨entry.title, entry.summaryText, entry.link, s, e⟩ : CalendarEvent) ::ₘ acc.1,
     acc.2.1 + 1, acc.2.2)
  | _ => (acc.1, acc.2.1, acc.2.2 + 1)

/-- The whole loop: returns (the unordered event collection,
`events_processed`, `events_skipped`). -/
def generate_calendar_loop (entries : List RawEntry) :
    Multiset CalendarEvent × Nat × Nat :=
  entries.foldl processEntry (0, 0, 0)

/-- Does an entry survive the loop (`start_dt` and `end_dt` both set)? -/
def entrySucceeds (entry : RawEntry) : Bool :=
  match parse_event_datetime entry.summaryText with
  | (some _, some _) => true
  | _ => false

/-- The event an entry contributes, if it parses. -/
def eventOf (entry : RawEntry) : Option CalendarEvent :=
  match parse_event_datetime entry.summaryText with
  | (some s, some e) => some ⟨entry.title, entry.summaryText, entry.link, s, e⟩
  | _ => none

/-!
## Shape of the captured groups
-/

/-- Every character satisfies `isAsciiLetter`. -/
def LettersOnly (l : List Char) : Prop := ∀ c ∈ l, isAsciiLetter c = true

/-- Shape of a `\d{1,2}` capture. -/
def DigTok (t : List Char) : Prop :=
  (∃ c, t = [c] ∧ isDigitC c = true) ∨
  (∃ c d, t = [c, d] ∧ isDigitC c = true ∧ isDigitC d = true)

/-- Shape of a `\d{1,2}(?::\d{2})?` capture. -/
def TimeTok (t : List Char) : Prop :=
  (∃ c, t = [c] ∧ isDigitC c = true) ∨
  (∃ c d, t = [c, d] ∧ isDigitC c = true ∧ isDigitC d = true) ∨
  (∃ c m1 m2, t = [c, ':', m1, m2] ∧ isDigitC c = true ∧ isDigitC m1 = true ∧
    isDigitC m2 = true) ∨
  (∃ c d m1 m2, t = [c, d, ':', m1, m2] ∧ isDigitC c = true ∧ isDigitC d = true ∧
    isDigitC m1 = true ∧ isDigitC m2 = true)

/-- Shape of the `\d{4}` capture. -/
def Year4 (t : List Char) : Prop :=
  ∃ a b c d, t = [a, b, c, d] ∧ isDigitC a = true ∧ isDigitC b = true ∧
    isDigitC c = true ∧ isDigitC d = true

/-- Shape of an `[ap]` capture. -/
def ApOk (c : Char) : Prop := c = 'a' ∨ c = 'p'

/-- Well-formedness of a complete set of capture groups. -/
structure WFGroups (g : MatchGroups) : Prop where
  mn_ne : g.monthName ≠ []
  mn_letters : LettersOnly g.monthName
  day : DigTok g.dayStr
  year : Year4 g.yearStr
  st : TimeTok g.startTime
  sap : ApOk g.startAp
  et : TimeTok g.endTime
  eap : ApOk g.endAp

theorem matchDigits12_some {α : Type} {k : List Char → List Char → Option α}
    {s : List Char} {r : α} (h : matchDigits12 k s = some r) :
    ∃ t rest, DigTok t ∧ k t rest = some r := by
  match s with
  | [] => simp [matchDigits12] at h
  | [c1] =>
    simp only [matchDigits12] at h
    by_cases h1 : isDigitC c1
    · rw [if_pos h1] at h
      exact ⟨[c1], [], Or.inl ⟨c1, rfl, h1⟩, h⟩
    · rw [if_neg h1] at h; exact absurd h (by simp)
  | c1 :: c2 :: rest2 =>
    simp only [matchDigits12] at h
    by_cases h1 : isDigitC c1
    · rw [if_pos h1] at h
      by_cases h2 : isDigitC c2
      · rw [if_pos h2] at h
        cases hk : k [c1, c2] rest2 with
        | some v =>
          rw [hk] at h
          exact ⟨[c1, c2], rest2, Or.inr ⟨c1, c2, rfl, h1, h2⟩, hk.trans h⟩
        | none =>
          rw [hk] at h
          exact ⟨[c1], c2 :: rest2, Or.inl ⟨c1, rfl, h1⟩, h⟩
      · rw [if_neg h2] at h
        exact ⟨[c1], c2 :: rest2, Or.inl ⟨c1, rfl, h1⟩, h⟩
    · rw [if_neg h1] at h; exact absurd h (by simp)

theorem matchTime1_some {α : Type} {k : List Char → List Char → Option α}
    {c1 : Char} {rest1 : List Char} {r : α} (h1 : isDigitC c1 = true)
    (h : matchTime1 k c1 rest1 = some r) :
    ∃ t rest, TimeTok t ∧ k t rest = some r := by
  have one : ∀ rest, k [c1] rest = some r → ∃ t rest2, TimeTok t ∧ k t rest2 = some r :=
    fun rest hk => ⟨[c1], rest, Or.inl ⟨c1, rfl, h1⟩, hk⟩
  match rest1 with
  | [] => exact one _ h
  | [x] => exact one _ h
  | [x, y] => exact one _ h
  | x :: m1 :: m2 :: rest2 =>
    simp only [matchTime1] at h
    by_cases hg : x == ':' && isDigitC m1 && isDigitC m2
    · rw [if_pos hg] at h
      simp only [Bool.and_eq_true, beq_iff_eq] at hg
      cases hk : k [c1, ':', m1, m2] rest2 with
      | some v =>
        rw [hk] at h
        refine ⟨[c1, ':', m1, m2], rest2, ?_, hk.trans h⟩
        exact Or.inr (Or.inr (Or.inl ⟨c1, m1, m2, rfl, h1, hg.1.2, hg.2⟩))
      | none => rw [hk] at h; exact one _ h
    · rw [if_neg hg] at h
      exact one _ h

theorem matchTime2_some {α : Type} {k : List Char → List Char → Option α}
    {c1 c2 : Char} {rest1 rest2 : List Char} {r : α} (h1 : isDigitC c1 = true)
    (h2 : isDigitC c2 = true) (h : matchTime2 k c1 c2 rest1 rest2 = some r) :
    ∃ t rest, TimeTok t ∧ k t rest = some r := by
  simp only [matchTime2] at h
  cases hk : k [c1, c2] rest2 with
  | some v =>
    rw [hk] at h
    exact ⟨[c1, c2], rest2, Or.inr (Or.inl ⟨c1, c2, rfl, h1, h2⟩), hk.trans h⟩
  | none =>
    rw [hk] at h
    exact matchTime1_some h1 h

theorem matchTimeGroup_some {α : Type} {k : List Char → List Char → Option α}
    {s : List Char} {r : α} (h : matchTimeGroup k s = some r) :
    ∃ t rest, TimeTok t ∧ k t rest = some r := by
  match s with
  | [] => simp [matchTimeGroup] at h
  | [c1] =>
    simp only [matchTimeGroup] at h
    by_cases h1 : isDigitC c1
    · rw [if_pos h1] at h; exact matchTime1_some h1 h
    · rw [if_neg h1] at h; exact absurd h (by simp)
  | [c1, c2] =>
    simp only [matchTimeGroup] at h
    by_cases h1 : isDigitC c1
    · rw [if_pos h1] at h
      by_cases h2 : isDigitC c2
      · rw [if_pos h2] at h; exact matchTime2_some h1 h2 h
      · rw [if_neg h2] at h; exact matchTime1_some h1 h
    · rw [if_neg h1] at h; exact absurd h (by simp)
  | [c1, c2, x] =>
    simp only [matchTimeGroup] at h
    by_cases h1 : isDigitC c1
    · rw [if_pos h1] at h
      by_cases h2 : isDigitC c2
      · rw [if_pos h2] at h; exact matchTime2_some h1 h2 h
      · rw [if_neg h2] at h; exact matchTime1_some h1 h
    · rw [if_neg h1] at h; exact absurd h (by simp)
  | [c1, c2, x, y] =>
    simp only [matchTimeGroup] at h
    by_cases h1 : isDigitC c1
    · rw [if_pos h1] at h
      by_cases h2 : isDigitC c2
      · rw [if_pos h2] at h; exact matchTime2_some h1 h2 h
      · rw [if_neg h2] at h; exact matchTime1_some h1 h
    · rw [if_neg h1] at h; exact absurd h (by simp)
  | c1 :: c2 :: x :: m1 :: m2 :: rest3 =>
    simp only [matchTimeGroup] at h
    by_cases h1 : isDigitC c1
    · rw [if_pos h1] at h
      by_cases h2 : isDigitC c2
      · rw [if_pos h2] at h
        by_cases hg : x == ':' && isDigitC m1 && isDigitC m2
        · rw [if_pos hg] at h
          simp only [Bool.and_eq_true, beq_iff_eq] at hg
          cases hk : k [c1, c2, ':', m1, m2] rest3 with
          | some v =>
            rw [hk] at h
            refine ⟨[c1, c2, ':', m1, m2], rest3, ?_, hk.trans h⟩
            exact Or.inr (Or.inr (Or.inr ⟨c1, c2, m1, m2, rfl, h1, h2, hg.1.2, hg.2⟩))
          | none => rw [hk] at h; exact matchTime2_some h1 h2 h
        · rw [if_neg hg] at h
          exact matchTime2_some h1 h2 h
      · rw [if_neg h2] at h; exact matchTime1_some h1 h
    · rw [if_neg h1] at h; exact absurd h (by simp)

theorem afterSepW_some {L D Y st : List Char} {a1 : Char} {et w : List Char}
    {g : MatchGroups} (h : afterSepW L D Y st a1 et w = some g) :
    ∃ a2, ApOk a2 ∧ g = ⟨L, D, Y, st, a1, et, a2⟩ := by
  match w with
  | [] => simp [afterSepW] at h
  | [a2] => simp [afterSepW] at h
  | [a2, d1] => simp [afterSepW] at h
  | [a2, d1, mc] => simp [afterSepW] at h
  | a2 :: d1 :: mc :: d2 :: tail =>
    simp only [afterSepW] at h
    by_cases hg : (a2 == 'a' || a2 == 'p') && d1 == '.' && mc == 'm' && d2 == '.'
    · rw [if_pos hg] at h
      simp only [Bool.and_eq_true, Bool.or_eq_true, beq_iff_eq] at hg
      injection h with h2
      exact ⟨a2, hg.1.1.1, h2.symm⟩
    · rw [if_neg hg] at h; exact absurd h (by simp)

theorem sepThenEnd_some {L D Y st : List Char} {a1 : Char} {w : List Char}
    {g : MatchGroups} (h : sepThenEnd L D Y st a1 w = some g) :
    ∃ et a2, TimeTok et ∧ ApOk a2 ∧ g = ⟨L, D, Y, st, a1, et, a2⟩ := by
  match w with
  | [] => simp [sepThenEnd] at h
  | sep :: r12 =>
    simp only [sepThenEnd] at h
    by_cases hs : isSepChar sep
    · rw [if_pos hs] at h
      obtain ⟨et, rest, hTT, hk⟩ := matchTimeGroup_some h
      obtain ⟨a2, hap2, rfl⟩ := afterSepW_some hk
      exact ⟨et, a2, hTT, hap2, rfl⟩
    · rw [if_neg hs] at h; exact absurd h (by simp)

theorem afterStartTimeW_some {L D Y st w : List Char} {g : MatchGroups}
    (h : afterStartTimeW L D Y st w = some g) :
    ∃ a1 et a2, ApOk a1 ∧ TimeTok et ∧ ApOk a2 ∧ g = ⟨L, D, Y, st, a1, et, a2⟩ := by
  match w with
  | [] => simp [afterStartTimeW] at h
  | [a1] => simp [afterStartTimeW] at h
  | [a1, d1] => simp [afterStartTimeW] at h
  | [a1, d1, mc] => simp [afterStartTimeW] at h
  | a1 :: d1 :: mc :: d2 :: r10 =>
    simp only [afterStartTimeW] at h
    by_cases hg : (a1 == 'a' || a1 == 'p') && d1 == '.' && mc == 'm' && d2 == '.'
    · rw [if_pos hg] at h
      simp only [Bool.and_eq_true, Bool.or_eq_true, beq_iff_eq] at hg
      obtain ⟨et, a2, hTT, hap2, rfl⟩ := sepThenEnd_some h
      exact ⟨a1, et, a2, hg.1.1.1, hTT, hap2, rfl⟩
    · rw [if_neg hg] at h; exact absurd h (by simp)

theorem commaThenTimes_some {L D : List Char} {y1 y2 y3 y4 : Char}
    {r5 : List Char} {g : MatchGroups}
    (h : commaThenTimes L D y1 y2 y3 y4 r5 = some g) :
    ∃ st a1 et a2, TimeTok st ∧ ApOk a1 ∧ TimeTok et ∧ ApOk a2 ∧
      g = ⟨L, D, [y1, y2, y3, y4], st, a1, et, a2⟩ := by
  match r5 with
  | [] => simp [commaThenTimes] at h
  | cm2 :: r6 =>
    simp only [commaThenTimes] at h
    by_cases hc : cm2 == ','
    · rw [if_pos hc] at h
      obtain ⟨st, rest, hst, hk⟩ := matchTimeGroup_some h
      obtain ⟨a1, et, a2, hap1, het, hap2, rfl⟩ := afterStartTimeW_some hk
      exact ⟨st, a1, et, a2, hst, hap1, het, hap2, rfl⟩
    · rw [if_neg hc] at h; exact absurd h (by simp)

theorem afterDay_some {L D r3 : List Char} {g : MatchGroups}
    (h : afterDay L D r3 = some g) :
    ∃ Y st a1 et a2, Year4 Y ∧ TimeTok st ∧ ApOk a1 ∧ TimeTok et ∧ ApOk a2 ∧
      g = ⟨L, D, Y, st, a1, et, a2⟩ := by
  match r3 with
  | [] => simp [afterDay] at h
  | [cm] => simp [afterDay] at h
  | [cm, sp] => simp [afterDay] at h
  | [cm, sp, y1] => simp [afterDay] at h
  | [cm, sp, y1, y2] => simp [afterDay] at h
  | [cm, sp, y1, y2, y3] => simp [afterDay] at h
  | cm :: sp :: y1 :: y2 :: y3 :: y4 :: r5 =>
    simp only [afterDay] at h
    by_cases hg : cm == ',' && sp == ' ' && isDigitC y1 && isDigitC y2 &&
      isDigitC y3 && isDigitC y4
    · rw [if_pos hg] at h
      simp only [Bool.and_eq_true, beq_iff_eq] at hg
      obtain ⟨⟨⟨⟨⟨hcm, hsp⟩, hy1⟩, hy2⟩, hy3⟩, hy4⟩ := hg
      obtain ⟨st, a1, et, a2, hst, hap1, het, hap2, rfl⟩ := commaThenTimes_some h
      exact ⟨[y1, y2, y3, y4], st, a1, et, a2,
        ⟨y1, y2, y3, y4, rfl, hy1, hy2, hy3, hy4⟩, hst, hap1, het, hap2, rfl⟩
    · rw [if_neg hg] at h; exact absurd h (by simp)

theorem spaceThenDay_some {L w : List Char} {g : MatchGroups}
    (h : spaceThenDay L w = some g) :
    ∃ D Y st a1 et a2, DigTok D ∧ Year4 Y ∧ TimeTok st ∧ ApOk a1 ∧ TimeTok et ∧
      ApOk a2 ∧ g = ⟨L, D, Y, st, a1, et, a2⟩ := by
  match w with
  | [] => simp [spaceThenDay] at h
  | sp :: r2 =>
    simp only [spaceThenDay] at h
    by_cases hs : sp == ' '
    · rw [if_pos hs] at h
      obtain ⟨D, rest, hD, hk⟩ := matchDigits12_some h
      obtain ⟨Y, st, a1, et, a2, hY, hst, hap1, het, hap2, rfl⟩ := afterDay_some hk
      exact ⟨D, Y, st, a1, et, a2, hD, hY, hst, hap1, het, hap2, rfl⟩
    · rw [if_neg hs] at h; exact absurd h (by simp)

theorem matchAt_wf {s : List Char} {g : MatchGroups} (h : matchAt s = some g) :
    WFGroups g ∧ g.monthName = s.takeWhile isAsciiLetter := by
  unfold matchAt at h
  by_cases hE : (s.takeWhile isAsciiLetter).isEmpty
  · rw [if_pos hE] at h; exact absurd h (by simp)
  · rw [if_neg hE] at h
    obtain ⟨D, Y, st, a1, et, a2, hD, hY, hst, hap1, het, hap2, rfl⟩ :=
      spaceThenDay_some h
    refine ⟨⟨?_, ?_, hD, hY, hst, hap1, het, hap2⟩, rfl⟩
    · intro hnil
      have h0 : List.takeWhile isAsciiLetter s = [] := hnil
      exact hE (by rw [h0]; rfl)
    · exact fun c hc => List.mem_takeWhile_imp hc

/-- `re.search` uses the leftmost matching position. -/
theorem searchGroups_first {t : List Char} {g : MatchGroups}
    (h : searchGroups t = some g) :
    ∃ n, matchAt (t.drop n) = some g ∧ ∀ m, m < n → matchAt (t.drop m) = none := by
  induction t with
  | nil => simp [searchGroups] at h
  | cons c cs ih =>
    rw [searchGroups] at h
    cases hm : matchAt (c :: cs) with
    | some gm =>
      rw [hm] at h
      refine ⟨0, ?_, fun m hm0 => absurd hm0 (Nat.not_lt_zero m)⟩
      simp only [List.drop_zero]
      rw [hm]; exact h
    | none =>
      rw [hm] at h
      obtain ⟨n, h1, h2⟩ := ih h
      refine ⟨n + 1, by simpa using h1, ?_⟩
      intro m hlt
      cases m with
      | zero => simpa using hm
      | succ m2 => simpa using h2 m2 (by omega)

/-- Any result of the search is well-formed. -/
theorem searchGroups_wf {t : List Char} {g : MatchGroups}
    (h : searchGroups t = some g) : WFGroups g := by
  obtain ⟨n, h1, _⟩ := searchGroups_first h
  exact (matchAt_wf h1).1

/-!
## Character-class facts
-/

theorem letter_not_space {c : Char} (h : isAsciiLetter c = true) :
    isPySpace c = false := by
  simp only [isAsciiLetter, Bool.or_eq_true, Bool.and_eq_true,
    decide_eq_true_eq] at h
  simp only [isPySpace, Bool.or_eq_false_iff, Bool.and_eq_false_iff,
    beq_eq_false_iff_ne, ne_eq, decide_eq_false_iff_not, not_le]
  omega

theorem digit_not_space {c : Char} (h : isDigitC c = true) :
    isPySpace c = false := by
  simp only [isDigitC, Bool.and_eq_true, decide_eq_true_eq] at h
  simp only [isPySpace, Bool.or_eq_false_iff, Bool.and_eq_false_iff,
    beq_eq_false_iff_ne, ne_eq, decide_eq_false_iff_not, not_le]
  omega

theorem digit_ne_colon {c : Char} (h : isDigitC c = true) : (c == ':') = false := by
  simp only [beq_eq_false_iff_ne, ne_eq]
  intro hc
  subst hc
  exact absurd h (by decide)

theorem lowerN_letter {c : Char} (h : isAsciiLetter c = true) :
    97 ≤ lowerN c ∧ lowerN c ≤ 122 := by
  simp only [isAsciiLetter, Bool.or_eq_true, Bool.and_eq_true,
    decide_eq_true_eq] at h
  rcases h with ⟨h1, h2⟩ | ⟨h1, h2⟩
  · have hin : (65 ≤ c.toNat && c.toNat ≤ 90) = true := by
      simp only [Bool.and_eq_true, decide_eq_true_eq]
      exact ⟨h1, h2⟩
    unfold lowerN
    rw [if_pos hin]
    omega
  · have hin : ¬(65 ≤ c.toNat && c.toNat ≤ 90) = true := by
      simp only [Bool.and_eq_true, decide_eq_true_eq, not_and, not_le]
      intro _
      omega
    unfold lowerN
    rw [if_neg hin]
    omega

theorem letter_eqCI_space {c : Char} (h : isAsciiLetter c = true) :
    eqCI c ' ' = false := by
  have hl := lowerN_letter h
  simp only [eqCI, beq_eq_false_iff_ne, ne_eq]
  intro he
  rw [show lowerN ' ' = 32 from rfl] at he
  omega

/-!
## The month alternation on well-formed input
-/

/-- Every English month name is made of ASCII letters. -/
theorem englishMonths_letters :
    ∀ name ∈ englishMonths, ∀ c ∈ name, isAsciiLetter c = true := by decide

theorem stripPrefixCI_letters {name mn R r : List Char}
    (hname : ∀ c ∈ name, isAsciiLetter c = true) (hmn : LettersOnly mn)
    (h : stripPrefixCI name (mn ++ ' ' :: R) = some r) :
    (lowerEq name mn = true ∧ r = ' ' :: R) ∨
    (∃ c cs, r = c :: cs ∧ isAsciiLetter c = true) := by
  induction name generalizing mn with
  | nil =>
    simp only [stripPrefixCI] at h
    injection h with h2
    cases mn with
    | nil => exact Or.inl ⟨rfl, h2.symm⟩
    | cons c cs =>
      refine Or.inr ⟨c, cs ++ ' ' :: R, h2.symm, hmn c ?_⟩
      exact List.mem_cons_self c cs
  | cons n ns ih =>
    cases mn with
    | nil =>
      simp only [List.nil_append, stripPrefixCI] at h
      rw [if_neg ?hne] at h
      case hne =>
        have hn : isAsciiLetter n = true := hname n (List.mem_cons_self n ns)
        simp [letter_eqCI_space hn]
      exact absurd h (by simp)
    | cons c cs =>
      simp only [List.cons_append, stripPrefixCI] at h
      by_cases he : eqCI n c
      · rw [if_pos he] at h
        have hns : ∀ x ∈ ns, isAsciiLetter x = true :=
          fun x hx => hname x (List.mem_cons_of_mem n hx)
        have hcs : LettersOnly cs := fun x hx => hmn x (List.mem_cons_of_mem c hx)
        rcases ih hns hcs h with ⟨hEq, hr⟩ | hr
        · left
          refine ⟨?_, hr⟩
          simp only [lowerEq, Bool.and_eq_true]
          exact ⟨he, hEq⟩
        · exact Or.inr hr
      · rw [if_neg he] at h
        exact absurd h (by simp)

theorem matchBAux_some {i : Nat} {months : List (List Char)} {s : List Char}
    {j : Nat} {r : List Char} (h : matchBAux i months s = some (j, r)) :
    ∃ k name, months[k]? = some name ∧ j = i + k ∧
      stripPrefixCI name s = some r := by
  induction months generalizing i with
  | nil => simp [matchBAux] at h
  | cons name rest ih =>
    simp only [matchBAux] at h
    cases hs : stripPrefixCI name s with
    | some r2 =>
      rw [hs] at h
      injection h with h2
      rw [Prod.mk.injEq] at h2
      obtain ⟨hij, hr⟩ := h2
      refine ⟨0, name, by simp, by omega, ?_⟩
      rw [hs, hr]
    | none =>
      rw [hs] at h
      obtain ⟨k, name2, hget, hj, hs2⟩ := ih h
      refine ⟨k + 1, name2, by simpa using hget, by omega, hs2⟩

/-!
## Evaluating the format regex on composed strings
-/

/-- The hour digits of a captured time token (digits before the `:`). -/
def hourOfTime (t : List Char) : Nat :=
  natOfDigits (t.takeWhile (fun c => !(c == ':')))

/-- The minute value of a captured time token (`0` when minutes are absent,
matching the `":00"` the code appends). -/
def minuteOfTime (t : List Char) : Nat :=
  natOfDigits ((t.dropWhile (fun c => !(c == ':'))).tail)

theorem natOfDigits_single (c : Char) : natOfDigits [c] = digitVal c := by
  simp [natOfDigits]

/-- Normal form of `addMissingMinutes` on a captured time token: hour digits,
a colon, two minute digits. -/
theorem addMissing_norm {t : List Char} (h : TimeTok t) :
    ∃ hl m1 m2, addMissingMinutes t = hl ++ ':' :: m1 :: m2 :: [] ∧ DigTok hl ∧
      isDigitC m1 = true ∧ isDigitC m2 = true ∧
      natOfDigits hl = hourOfTime t ∧ natOfDigits [m1, m2] = minuteOfTime t := by
  rcases h with ⟨c, rfl, hc⟩ | ⟨c, d, rfl, hc, hd⟩ | ⟨c, m1, m2, rfl, hc, h1, h2⟩ |
    ⟨c, d, m1, m2, rfl, hc, hd, h1, h2⟩
  · refine ⟨[c], '0', '0', ?_, Or.inl ⟨c, rfl, hc⟩, by decide, by decide, ?_, ?_⟩
    · simp [addMissingMinutes, digit_ne_colon hc]
    · simp [hourOfTime, digit_ne_colon hc]
    · simp [minuteOfTime, digit_ne_colon hc]
      decide
  · refine ⟨[c, d], '0', '0', ?_, Or.inr ⟨c, d, rfl, hc, hd⟩, by decide, by decide,
      ?_, ?_⟩
    · simp [addMissingMinutes, digit_ne_colon hc, digit_ne_colon hd]
    · simp [hourOfTime, digit_ne_colon hc, digit_ne_colon hd]
    · simp [minuteOfTime, digit_ne_colon hc, digit_ne_colon hd]
      decide
  · refine ⟨[c], m1, m2, ?_, Or.inl ⟨c, rfl, hc⟩, h1, h2, ?_, ?_⟩
    · simp [addMissingMinutes]
    · simp [hourOfTime, digit_ne_colon hc]
    · simp [minuteOfTime, digit_ne_colon hc]
  · refine ⟨[c, d], m1, m2, ?_, Or.inr ⟨c, d, rfl, hc, hd⟩, h1, h2, ?_, ?_⟩
    · simp [addMissingMinutes]
    · simp [hourOfTime, digit_ne_colon hc, digit_ne_colon hd]
    · simp [minuteOfTime, digit_ne_colon hc, digit_ne_colon hd]

/-- A token with a digit at its head survives `\s*`'s greedy drop. -/
theorem dropWhile_digtok {t R : List Char} (h : DigTok t) :
    (t ++ R).dropWhile isPySpace = t ++ R := by
  rcases h with ⟨c, rfl, hc⟩ | ⟨c, d, rfl, hc, hd⟩ <;>
    simp [List.dropWhile_cons_of_neg, digit_not_space, hc]

theorem matchWS_space (R : List Char) :
    matchWS (' ' :: R) = some (R.dropWhile isPySpace) := by
  simp [matchWS]
  decide

/-- `%d` on a day token followed by the literal `,`: the engine consumes
exactly the token, or fails. -/
theorem matchD_day {t R : List Char} (h : DigTok t) :
    matchD (t ++ ',' :: R) = none ∨
    matchD (t ++ ',' :: R) = some (natOfDigits t, ',' :: R) := by
  rcases h with ⟨c, rfl, hc⟩ | ⟨c, d, rfl, hc, hd⟩
  · simp only [List.cons_append, List.nil_append, matchD]
    rw [if_neg (by simp [show isDigitC ',' = false from by decide])]
    by_cases h9 : 49 ≤ c.toNat && c.toNat ≤ 57
    · rw [if_pos h9, natOfDigits_single]
      exact Or.inr rfl
    · rw [if_neg h9]
      exact Or.inl rfl
  · simp only [List.cons_append, List.nil_append, matchD]
    rw [if_pos (by simp [hc, hd])]
    by_cases hv : (c == '3' && (d == '0' || d == '1')) || c == '1' || c == '2' ||
      (c == '0' && d != '0')
    · rw [if_pos hv]
      exact Or.inr rfl
    · rw [if_neg hv]
      exact Or.inl rfl

/-- `%I` on an hour token followed by the literal `:`. -/
theorem matchI_hour {t R : List Char} (h : DigTok t) :
    matchI (t ++ ':' :: R) = none ∨
    matchI (t ++ ':' :: R) = some (natOfDigits t, ':' :: R) := by
  rcases h with ⟨c, rfl, hc⟩ | ⟨c, d, rfl, hc, hd⟩
  · simp only [List.cons_append, List.nil_append, matchI]
    rw [if_neg (by simp [show isDigitC ':' = false from by decide])]
    by_cases h9 : 49 ≤ c.toNat && c.toNat ≤ 57
    · rw [if_pos h9, natOfDigits_single]
      exact Or.inr rfl
    · rw [if_neg h9]
      exact Or.inl rfl
  · simp only [List.cons_append, List.nil_append, matchI]
    rw [if_pos (by simp [hc, hd])]
    by_cases hv : (c == '1' && (d == '0' || d == '1' || d == '2')) ||
      (c == '0' && d != '0')
    · rw [if_pos hv]
      exact Or.inr rfl
    · rw [if_neg hv]
      exact Or.inl rfl

/-- `%M` on the two minute digits followed by a space. -/
theorem matchM_min {m1 m2 : Char} {R : List Char} (h1 : isDigitC m1 = true)
    (h2 : isDigitC m2 = true) :
    matchM (m1 :: m2 :: ' ' :: R) = none ∨
    matchM (m1 :: m2 :: ' ' :: R) = some (natOfDigits [m1, m2], ' ' :: R) := by
  simp only [matchM]
  rw [if_pos (by simp [h1, h2])]
  by_cases hv : 48 ≤ m1.toNat && m1.toNat ≤ 53
  · rw [if_pos hv]
    exact Or.inr rfl
  · rw [if_neg hv]
    exact Or.inl rfl

/-- `%Y` always consumes a well-formed year token. -/
theorem matchY_year {t R : List Char} (h : Year4 t) :
    matchY (t ++ R) = some (natOfDigits t, R) := by
  obtain ⟨a, b, c, d, rfl, ha, hb, hc, hd⟩ := h
  simp [matchY, ha, hb, hc, hd]

theorem matchLit_self (c : Char) (R : List Char) :
    matchLit c (c :: R) = some R := by
  simp [matchLit]

/-- The tail `" AM"`/`" PM"` of a composed string: `\s+` then `%p`,
consuming everything. -/
theorem matchP_ap {ap : Char} (hap : ap = 'a' ∨ ap = 'p') :
    matchP (List.dropWhile isPySpace [ap.toUpper, 'M']) =
      some (ap == 'p', []) := by
  rcases hap with rfl | rfl <;> decide

/-- Main lemma: a successful `strptime` of a composed date-time string
determines every field of the result from the captured groups: the month is
the (case-insensitive) index of the month name, year and day are the numeric
values of their digit strings, and hour/minute come from the time token via
the 12-hour conversion. -/
theorem strptime_composed {mn dayStr yearStr time : List Char} {ap : Char}
    {p : PTime} (hmn : LettersOnly mn) (hday : DigTok dayStr)
    (hyear : Year4 yearStr) (htime : TimeTok time) (hap : ap = 'a' ∨ ap = 'p')
    (h : strptimeFmt englishMonths
      (mn ++ ' ' :: (dayStr ++ ',' :: ' ' :: (yearStr ++ ' ' ::
        (addMissingMinutes time ++ ' ' :: [ap.toUpper, 'M'])))) = Except.ok p) :
    (∃ name, englishMonths[p.month - 1]? = some name ∧ lowerEq name mn = true) ∧
    1 ≤ p.month ∧ p.month ≤ 12 ∧
    p.year = natOfDigits yearStr ∧ p.day = natOfDigits dayStr ∧
    p.hour = hour24 (hourOfTime time) (ap == 'p') ∧
    p.minute = minuteOfTime time := by
  obtain ⟨hl, m1, m2, hT, hhl, hm1, hm2, hH, hM⟩ := addMissing_norm htime
  rw [hT] at h
  rw [show (hl ++ ':' :: m1 :: m2 :: []) ++ ' ' :: [ap.toUpper, 'M'] =
      hl ++ ':' :: m1 :: m2 :: ' ' :: [ap.toUpper, 'M'] by simp] at h
  unfold strptimeFmt runFmt at h
  cases hB : matchB englishMonths (mn ++ ' ' :: (dayStr ++ ',' :: ' ' ::
      (yearStr ++ ' ' :: (hl ++ ':' :: m1 :: m2 :: ' ' :: [ap.toUpper, 'M'])))) with
  | none => rw [hB] at h; simp at h
  | some bo =>
    obtain ⟨mo, s1⟩ := bo
    rw [hB] at h
    simp only [Option.some_bind] at h
    have hB2 : matchBAux 1 englishMonths (mn ++ ' ' :: (dayStr ++ ',' :: ' ' ::
        (yearStr ++ ' ' :: (hl ++ ':' :: m1 :: m2 :: ' ' :: [ap.toUpper, 'M'])))) =
        some (mo, s1) := hB
    obtain ⟨k, name, hget, hmo, hstrip⟩ := matchBAux_some hB2
    have hname : ∀ c ∈ name, isAsciiLetter c = true :=
      englishMonths_letters name (List.getElem?_mem hget)
    rcases stripPrefixCI_letters hname hmn hstrip with ⟨hEq, rfl⟩ | ⟨c, cs, rfl, hcl⟩
    · -- month name consumed exactly; continue with the rest of the format
      rw [matchWS_space] at h
      rw [dropWhile_digtok hday] at h
      simp only [Option.some_bind] at h
      rcases matchD_day (R := ' ' :: (yearStr ++ ' ' ::
          (hl ++ ':' :: m1 :: m2 :: ' ' :: [ap.toUpper, 'M']))) hday with hD | hD
      · rw [hD] at h; simp at h
      · rw [hD] at h
        simp only [Option.some_bind] at h
        rw [matchLit_self] at h
        simp only [Option.some_bind] at h
        rw [matchWS_space] at h
        have hyd : (yearStr ++ ' ' :: (hl ++ ':' :: m1 :: m2 :: ' ' ::
            [ap.toUpper, 'M'])).dropWhile isPySpace =
            yearStr ++ ' ' :: (hl ++ ':' :: m1 :: m2 :: ' ' :: [ap.toUpper, 'M']) := by
          obtain ⟨a, b, c, d, rfl, ha, hb, hcc, hdd⟩ := hyear
          simp [List.dropWhile_cons_of_neg, digit_not_space, ha]
        rw [hyd] at h
        simp only [Option.some_bind] at h
        rw [matchY_year hyear] at h
        simp only [Option.some_bind] at h
        rw [matchWS_space] at h
        rw [dropWhile_digtok hhl] at h
        simp only [Option.some_bind] at h
        rcases matchI_hour (R := m1 :: m2 :: ' ' :: [ap.toUpper, 'M']) hhl with hI | hI
        · rw [hI] at h; simp at h
        · rw [hI] at h
          simp only [Option.some_bind] at h
          rw [matchLit_self] at h
          simp only [Option.some_bind] at h
          rcases matchM_min (R := [ap.toUpper, 'M']) hm1 hm2 with hMm | hMm
          · rw [hMm] at h; simp at h
          · rw [hMm] at h
            simp only [Option.some_bind] at h
            rw [matchWS_space] at h
            simp only [Option.some_bind] at h
            rw [matchP_ap hap] at h
            simp only [Option.map_some'] at h
            simp only [List.isEmpty_nil, if_true] at h
            by_cases hyr : natOfDigits yearStr < 1 || 9999 < natOfDigits yearStr
            · rw [if_pos hyr] at h; simp at h
            · rw [if_neg hyr] at h
              by_cases hdr : natOfDigits dayStr < 1 ||
                daysInMonth (natOfDigits yearStr) mo < natOfDigits dayStr
              · rw [if_pos hdr] at h; simp at h
              · rw [if_neg hdr] at h
                injection h with h2
                subst h2
                have hk12 : k < 12 := by
                  rw [List.getElem?_eq_some] at hget
                  have := hget.1
                  simpa [englishMonths] using this
                refine ⟨⟨name, ?_, hEq⟩, by show 1 ≤ mo; omega,
                  by show mo ≤ 12; omega, rfl, rfl, ?_, ?_⟩
                · show englishMonths[mo - 1]? = some name
                  have hk : mo - 1 = k := by omega
                  rw [hk]
                  exact hget
                · show hour24 (natOfDigits hl) (ap == 'p') =
                    hour24 (hourOfTime time) (ap == 'p')
                  rw [hH]
                · show natOfDigits [m1, m2] = minuteOfTime time
                  exact hM
    · -- the month name matched a strict prefix of the letter run: the
      -- following `\s+` sees a letter and the whole parse fails
      rw [show matchWS (c :: cs) = none from by
        simp [matchWS, letter_not_space hcl]] at h
      simp at h

theorem composeSide_eq (g : MatchGroups) (time : List Char) (ap : Char) :
    composeSide (dateStrOf g) time ap =
      g.monthName ++ ' ' :: (g.dayStr ++ ',' :: ' ' :: (g.yearStr ++ ' ' ::
        (addMissingMinutes time ++ ' ' :: [ap.toUpper, 'M']))) := by
  simp [composeSide, dateStrOf]

theorem lowerEq_map {a b : List Char} (h : lowerEq a b = true) :
    a.map lowerN = b.map lowerN := by
  induction a generalizing b with
  | nil =>
    cases b with
    | nil => rfl
    | cons y ys => simp [lowerEq] at h
  | cons x xs ih =>
    cases b with
    | nil => simp [lowerEq] at h
    | cons y ys =>
      simp only [lowerEq, Bool.and_eq_true] at h
      have hx : lowerN x = lowerN y := by
        have := h.1
        simpa [eqCI] using this
      simp only [List.map_cons, List.cons.injEq]
      exact ⟨hx, ih h.2⟩

/-- No two English month names agree case-insensitively. -/
theorem english_CI_inj : ∀ i, i < 12 → ∀ j, j < 12 →
    (englishMonths[i]?).map (fun l => l.map lowerN) =
    (englishMonths[j]?).map (fun l => l.map lowerN) → i = j := by decide

theorem parse_log_some (months : List (List Char)) {t : List Char}
    {g : MatchGroups} (hs : searchGroups t = some g) :
    parse_event_datetime_log_loc months t = handleGroups months g := by
  unfold parse_event_datetime_log_loc
  rw [hs]

/-- A successful `parse_event_datetime` determines both timestamps from the
captured groups: Montreal timezone on both, equal calendar dates given by the
written month/day/year, and hours/minutes from the time tokens. -/
theorem parse_ok_fields {t : List Char} {s e : ZonedDateTime}
    (h : parse_event_datetime t = (some s, some e)) :
    ∃ g, searchGroups t = some g ∧
      s.tz = "America/Montreal" ∧ e.tz = "America/Montreal" ∧
      s.year = e.year ∧ s.month = e.month ∧ s.day = e.day ∧
      1 ≤ s.month ∧ s.month ≤ 12 ∧
      (∃ name, englishMonths[s.month - 1]? = some name ∧
        lowerEq name g.monthName = true) ∧
      s.year = natOfDigits g.yearStr ∧ s.day = natOfDigits g.dayStr ∧
      s.hour = hour24 (hourOfTime g.startTime) (g.startAp == 'p') ∧
      s.minute = minuteOfTime g.startTime ∧
      e.hour = hour24 (hourOfTime g.endTime) (g.endAp == 'p') ∧
      e.minute = minuteOfTime g.endTime := by
  cases hs : searchGroups t with
  | none =>
    unfold parse_event_datetime parse_event_datetime_loc
      parse_event_datetime_log_loc at h
    rw [hs] at h
    simp at h
  | some g =>
    have hwf := searchGroups_wf hs
    have h2 : (handleGroups englishMonths g).1 = (some s, some e) := by
      rw [← parse_log_some englishMonths hs]
      exact h
    clear h
    unfold handleGroups at h2
    cases hS : strptimeFmt englishMonths
        (composeSide (dateStrOf g) g.startTime g.startAp) with
    | error eMsg => rw [hS] at h2; simp at h2
    | ok sdt =>
      rw [hS] at h2
      cases hE : strptimeFmt englishMonths
          (composeSide (dateStrOf g) g.endTime g.endAp) with
      | error eMsg => rw [hE] at h2; simp at h2
      | ok edt =>
        rw [hE] at h2
        simp only [Prod.mk.injEq, Option.some.injEq] at h2
        obtain ⟨hs1, hs2⟩ := h2
        subst hs1
        subst hs2
        rw [composeSide_eq] at hS hE
        have H1 := strptime_composed hwf.mn_letters hwf.day hwf.year hwf.st
          hwf.sap hS
        have H2 := strptime_composed hwf.mn_letters hwf.day hwf.year hwf.et
          hwf.eap hE
        obtain ⟨⟨n1, hg1, hl1⟩, h1a, h1b, h1y, h1d, h1h, h1m⟩ := H1
        obtain ⟨⟨n2, hg2, hl2⟩, h2a, h2b, h2y, h2d, h2h, h2m⟩ := H2
        have hmonth : sdt.month = edt.month := by
          have e1 := lowerEq_map hl1
          have e2 := lowerEq_map hl2
          have hmap : (englishMonths[sdt.month - 1]?).map (fun l => l.map lowerN) =
              (englishMonths[edt.month - 1]?).map (fun l => l.map lowerN) := by
            rw [hg1, hg2]
            simp only [Option.map_some']
            rw [e1, e2]
          have := english_CI_inj (sdt.month - 1) (by omega) (edt.month - 1)
            (by omega) hmap
          omega
        refine ⟨g, rfl, rfl, rfl, ?_, ?_, ?_, ?_, ?_, ⟨n1, hg1, hl1⟩,
          h1y, h1d, h1h, h1m, h2h, h2m⟩
        · show sdt.year = edt.year
          rw [h1y, h2y]
        · exact hmonth
        · show sdt.day = edt.day
          rw [h1d, h2d]
        · exact h1a
        · exact h1b

/-!
## The batch loop
-/

theorem processEntry_succ (acc : Multiset CalendarEvent × Nat × Nat)
    {en : RawEntry} {s e : ZonedDateTime}
    (hp : parse_event_datetime en.summaryText = (some s, some e)) :
    processEntry acc en =
      ((⟨en.title, en.summaryText, en.link, s, e⟩ : CalendarEvent) ::ₘ acc.1,
       acc.2.1 + 1, acc.2.2) := by
  unfold processEntry
  rw [hp]

theorem loop_foldl (entries : List RawEntry) :
    ∀ (evs : Multiset CalendarEvent) (p k : Nat),
      entries.foldl processEntry (evs, p, k) =
      (evs + ↑(entries.filterMap eventOf),
       p + (entries.filter entrySucceeds).length,
       k + (entries.filter (fun en => !entrySucceeds en)).length) := by
  induction entries with
  | nil => intro evs p k; simp
  | cons en rest ih =>
    intro evs p k
    rw [List.foldl_cons]
    rcases hp : parse_event_datetime en.summaryText with ⟨o1, o2⟩
    match o1, o2 with
    | some s, some e =>
      have hS : entrySucceeds en = true := by simp [entrySucceeds, hp]
      have hEv : eventOf en = some ⟨en.title, en.summaryText, en.link, s, e⟩ := by
        simp [eventOf, hp]
      rw [processEntry_succ (evs, p, k) hp, ih]
      simp only [List.filter_cons, hS, hEv, List.filterMap_cons, if_true,
        Bool.not_true, Bool.false_eq_true, if_false, Prod.mk.injEq,
        List.length_cons]
      refine ⟨?_, ?_, ?_⟩
      · rw [← Multiset.cons_coe, Multiset.cons_add, Multiset.add_cons]
      · omega
      · trivial
    | some s, none =>
      have hS : entrySucceeds en = false := by simp [entrySucceeds, hp]
      have hEv : eventOf en = none := by simp [eventOf, hp]
      have hPE : processEntry (evs, p, k) en = (evs, p, k + 1) := by
        unfold processEntry
        rw [hp]
      rw [hPE, ih]
      simp [List.filter_cons, hS, hEv, List.filterMap_cons]
      omega
    | none, some e =>
      have hS : entrySucceeds en = false := by simp [entrySucceeds, hp]
      have hEv : eventOf en = none := by simp [eventOf, hp]
      have hPE : processEntry (evs, p, k) en = (evs, p, k + 1) := by
        unfold processEntry
        rw [hp]
      rw [hPE, ih]
      simp [List.filter_cons, hS, hEv, List.filterMap_cons]
      omega
    | none, none =>
      have hS : entrySucceeds en = false := by simp [entrySucceeds, hp]
      have hEv : eventOf en = none := by simp [eventOf, hp]
      have hPE : processEntry (evs, p, k) en = (evs, p, k + 1) := by
        unfold processEntry
        rw [hp]
      rw [hPE, ih]
      simp [List.filter_cons, hS, hEv, List.filterMap_cons]
      omega

theorem filterMap_eventOf_length (entries : List RawEntry) :
    (entries.filterMap eventOf).length = (entries.filter entrySucceeds).length := by
  induction entries with
  | nil => rfl
  | cons en rest ih =>
    rcases hp : parse_event_datetime en.summaryText with ⟨o1, o2⟩
    match o1, o2 with
    | some s, some e =>
      have hS : entrySucceeds en = true := by simp [entrySucceeds, hp]
      have hEv : eventOf en = some ⟨en.title, en.summaryText, en.link, s, e⟩ := by
        simp [eventOf, hp]
      simp [List.filter_cons, List.filterMap_cons, hS, hEv, ih]
    | some s, none =>
      have hS : entrySucceeds en = false := by simp [entrySucceeds, hp]
      have hEv : eventOf en = none := by simp [eventOf, hp]
      simp [List.filter_cons, List.filterMap_cons, hS, hEv, ih]
    | none, some e =>
      have hS : entrySucceeds en = false := by simp [entrySucceeds, hp]
      have hEv : eventOf en = none := by simp [eventOf, hp]
      simp [List.filter_cons, List.filterMap_cons, hS, hEv, ih]
    | none, none =>
      have hS : entrySucceeds en = false := by simp [entrySucceeds, hp]
      have hEv : eventOf en = none := by simp [eventOf, hp]
      simp [List.filter_cons, List.filterMap_cons, hS, hEv, ih]

theorem filter_split_length (p : RawEntry → Bool) (l : List RawEntry) :
    (l.filter p).length + (l.filter (fun x => !p x)).length = l.length := by
  induction l with
  | nil => rfl
  | cons x xs ih =>
    cases hx : p x <;> simp [List.filter_cons, hx] <;> omega

/-!
## Substring search (for inspecting logged diagnostics)
-/

def startsWithL : List Char → List Char → Bool
  | [], _ => true
  | _ :: _, [] => false
  | p :: ps, c :: cs => p == c && startsWithL ps cs

/-- Is `pat` a contiguous substring of the second list? -/
def containsSub (pat : List Char) : List Char → Bool
  | [] => startsWithL pat []
  | c :: cs => startsWithL pat (c :: cs) || containsSub pat cs

/-!
## The claims
-/

/-- "June 19, 2025, 4 p.m. - 6 p.m." (hyphen separator). -/
def exampleHyphen : List Char := "June 19, 2025, 4 p.m. - 6 p.m.".data

/-- "June 19, 2025, 4:30 p.m. - 6:15 p.m." (explicit minutes). -/
def exampleMinutes : List Char := "June 19, 2025, 4:30 p.m. - 6:15 p.m.".data

/-- The text before the separator in the example phrase. -/
def sepPre : List Char := "June 19, 2025, 4 p.m. ".data

/-- The text after the separator in the example phrase. -/
def sepPost : List Char := " 6 p.m.".data

/-- The parsed start instant of the example phrase. -/
def juneStart : ZonedDateTime := ⟨2025, 6, 19, 16, 0, "America/Montreal"⟩

/-- The parsed end instant of the example phrase. -/
def juneEnd : ZonedDateTime := ⟨2025, 6, 19, 18, 0, "America/Montreal"⟩

/-- C5: for every input text in which the date/time grammar does not match
anywhere, `parse_event_datetime` returns "no result" (`(None, None)`) and
does not raise; nothing is logged on this path.  (The model is a total
function: the absence of any exception path for a non-matching text is
reflected by the equation below, which also shows the warning log stays
empty.) -/
theorem C5_no_match_no_result (t : List Char) (h : searchGroups t = none) :
    parse_event_datetime_log t = ((none, none), []) := by
  unfold parse_event_datetime_log parse_event_datetime_log_loc
  rw [h]

theorem C5_witness :
    searchGroups ("no dates here".data) = none ∧
    parse_event_datetime_log ("no dates here".data) = ((none, none), []) :=
  ⟨by decide, C5_no_match_no_result ("no dates here".data) (by decide)⟩

/-- C10: the pair returned by `parse_event_datetime` is all-or-nothing:
either both components are `None` or both are timezone-aware instants;
a mixed pair is never returned. -/
theorem C10_all_or_nothing (t : List Char) :
    parse_event_datetime t = (none, none) ∨
    ∃ s e, parse_event_datetime t = (some s, some e) := by
  cases hs : searchGroups t with
  | none =>
    left
    unfold parse_event_datetime parse_event_datetime_loc
      parse_event_datetime_log_loc
    rw [hs]
  | some g =>
    have hp : parse_event_datetime t = (handleGroups englishMonths g).1 :=
      congrArg Prod.fst (parse_log_some englishMonths hs)
    rw [hp]
    unfold handleGroups
    cases hS : strptimeFmt englishMonths
        (composeSide (dateStrOf g) g.startTime g.startAp) with
    | error m => left; rfl
    | ok sdt =>
      cases hE : strptimeFmt englishMonths
          (composeSide (dateStrOf g) g.endTime g.endAp) with
      | error m => left; rfl
      | ok edt =>
        right
        exact ⟨withMontreal sdt, withMontreal edt, rfl⟩

/-- C9 counterexample: the claim asserts the parser has no dependence on the
process locale, but `datetime.strptime`'s `%B` matches the month names of the
`LC_TIME` locale (`_strptime.LocaleTime`), so the same text parses under the
C/English table and fails under a French table: the output depends on the
locale. -/
theorem C9_counterexample :
    parse_event_datetime_loc englishMonths exampleHyphen ≠
    parse_event_datetime_loc frenchMonths exampleHyphen := by decide

/-- C9 (amended): the parser is deterministic for a fixed locale — it is a
pure function of the text and the locale month table, with no dependence on
wall-clock time or prior calls — but its output does depend on the process
locale through `strptime`'s `%B`, as the French/English disagreement on a
concrete text shows. -/
theorem C9_amended :
    (∀ t, parse_event_datetime t = parse_event_datetime_loc englishMonths t) ∧
    (∀ months t, parse_event_datetime_loc months t =
      parse_event_datetime_loc months t) ∧
    parse_event_datetime_loc englishMonths exampleHyphen ≠
      parse_event_datetime_loc frenchMonths exampleHyphen :=
  ⟨fun _ => rfl, fun _ _ => rfl, by decide⟩

/-- C1 counterexample: the claim says hyphen, literal en-dash, and the
three-character mojibake sequence are all accepted with the same result, but
on otherwise identical text the en-dash and the full mojibake sequence
produce `(None, None)` while the hyphen parses: the regex class `[â€“-]`
contains the three mojibake characters individually, not the en-dash and not
the sequence. -/
theorem C1_counterexample :
    parse_event_datetime (sepPre ++ enDash :: sepPost) = (none, none) ∧
    parse_event_datetime
      (sepPre ++ mojibakeA :: mojibakeEuro :: mojibakeQuote :: sepPost) =
      (none, none) ∧
    parse_event_datetime exampleHyphen = (some juneStart, some juneEnd) := by
  refine ⟨by decide, by decide, by decide⟩

/-- C1 (amended): the separator accepted between the two times (optionally
surrounded by whitespace) is a single character from the class consisting of
the plain hyphen and the three mojibake characters `â`, `€`, `“`
individually; each of the four yields the same pair of instants.  The
literal Unicode en-dash and the full three-character mojibake sequence are
not accepted. -/
theorem C1_amended :
    parse_event_datetime exampleHyphen = (some juneStart, some juneEnd) ∧
    parse_event_datetime (sepPre ++ mojibakeA :: sepPost) =
      (some juneStart, some juneEnd) ∧
    parse_event_datetime (sepPre ++ mojibakeEuro :: sepPost) =
      (some juneStart, some juneEnd) ∧
    parse_event_datetime (sepPre ++ mojibakeQuote :: sepPost) =
      (some juneStart, some juneEnd) ∧
    parse_event_datetime (sepPre ++ enDash :: sepPost) = (none, none) ∧
    parse_event_datetime
      (sepPre ++ mojibakeA :: mojibakeEuro :: mojibakeQuote :: sepPost) =
      (none, none) ∧
    (∀ c, isSepChar c = true ↔
      (c = mojibakeA ∨ c = mojibakeEuro ∨ c = mojibakeQuote ∨ c = '-')) := by
  refine ⟨by decide, by decide, by decide, by decide, by decide, by decide, ?_⟩
  intro c
  simp [isSepChar, Bool.or_eq_true, beq_iff_eq]
  tauto

/-- C7 counterexample: the claim says the meridiem letter is matched
case-insensitively, but the group `([ap])` is compiled without
`re.IGNORECASE`: with uppercase letters ("4 P.m. - 6 P.m.") the text yields
`(None, None)` while the lowercase spelling parses, so the two spellings do
not produce the same pair of instants. -/
theorem C7_counterexample :
    parse_event_datetime ("June 19, 2025, 4 P.m. - 6 P.m.".data) =
      (none, none) ∧
    parse_event_datetime exampleHyphen = (some juneStart, some juneEnd) :=
  ⟨by decide, by decide⟩

/-- C7 (amended): the meridiem letter is matched case-sensitively: any
captured meridiem letter is the lowercase `a` or `p`, and a phrase written
with an uppercase meridiem letter does not match at all and yields no
result. -/
theorem C7_amended :
    (∀ t g, searchGroups t = some g →
      (g.startAp = 'a' ∨ g.startAp = 'p') ∧ (g.endAp = 'a' ∨ g.endAp = 'p')) ∧
    parse_event_datetime ("June 19, 2025, 4 P.m. - 6 P.m.".data) =
      (none, none) := by
  refine ⟨fun t g hg => ?_, by decide⟩
  have hwf := searchGroups_wf hg
  exact ⟨hwf.sap, hwf.eap⟩

theorem C7_witness :
    ((('p' : Char) = 'a' ∨ ('p' : Char) = 'p') ∧
     (('p' : Char) = 'a' ∨ ('p' : Char) = 'p')) :=
  C7_amended.1 exampleHyphen
    ⟨"June".data, ['1', '9'], ['2', '0', '2', '5'], ['4'], 'p', ['6'], 'p'⟩
    (by decide)

/-- C3: minute handling.  Time tokens without a `:` get `":00"` appended and
tokens with minutes are kept unchanged (lines 62-66); consequently, for any
successful parse the minute fields equal `minuteOfTime` of the captured
tokens (`0` for minute-omitted tokens, the written minutes otherwise); and
on the spec's two examples, "4 p.m. - 6 p.m." parses to local 16:00-18:00
and "4:30 p.m. - 6:15 p.m." to 16:30-18:15 on 2025-06-19. -/
theorem C3_default_minutes :
    (∀ t : List Char, t.any (fun c => c == ':') = false →
      addMissingMinutes t = t ++ [':', '0', '0']) ∧
    (∀ t : List Char, t.any (fun c => c == ':') = true →
      addMissingMinutes t = t) ∧
    (∀ t s e, parse_event_datetime t = (some s, some e) →
      ∃ g, searchGroups t = some g ∧ s.minute = minuteOfTime g.startTime ∧
        e.minute = minuteOfTime g.endTime) ∧
    parse_event_datetime exampleHyphen = (some juneStart, some juneEnd) ∧
    parse_event_datetime exampleMinutes =
      (some ⟨2025, 6, 19, 16, 30, "America/Montreal"⟩,
       some ⟨2025, 6, 19, 18, 15, "America/Montreal"⟩) := by
  refine ⟨fun t h => by simp [addMissingMinutes, h],
    fun t h => by simp [addMissingMinutes, h], fun t s e h => ?_,
    by decide, by decide⟩
  obtain ⟨g, hg, _, _, _, _, _, _, _, _, _, _, _, hsm, _, hem⟩ :=
    parse_ok_fields h
  exact ⟨g, hg, hsm, hem⟩

theorem C3_witness :
    addMissingMinutes ['4'] = ['4', ':', '0', '0'] ∧
    addMissingMinutes ['4', ':', '3', '0'] = ['4', ':', '3', '0'] ∧
    (∃ g, searchGroups exampleMinutes = some g ∧
      (⟨2025, 6, 19, 16, 30, "America/Montreal"⟩ : ZonedDateTime).minute =
        minuteOfTime g.startTime ∧
      (⟨2025, 6, 19, 18, 15, "America/Montreal"⟩ : ZonedDateTime).minute =
        minuteOfTime g.endTime) :=
  ⟨C3_default_minutes.1 ['4'] (by decide),
   C3_default_minutes.2.1 ['4', ':', '3', '0'] (by decide),
   C3_default_minutes.2.2.1 exampleMinutes _ _ (by decide)⟩

/-- C6 counterexample: the claim says every input whose matched substrings
fail to form a valid calendar date/time gets a logged diagnostic containing
the offending substrings.  "June 31" is such an input (June has 30 days),
but the logged message is the `datetime` constructor's
"day is out of range for month", which contains neither "31" nor "June": the
offending substrings are absent from the diagnostic. -/
theorem C6_counterexample :
    parse_event_datetime_log ("June 31, 2025, 4 p.m. - 6 p.m.".data) =
      ((none, none), [warnPrefix ++ dayRangeMsg]) ∧
    containsSub ("31".data) (warnPrefix ++ dayRangeMsg) = false ∧
    containsSub ("June".data) (warnPrefix ++ dayRangeMsg) = false :=
  ⟨by decide, by decide, by decide⟩

/-- C6 (amended): whenever the grammar matches but the matched substrings do
not form a valid date/time, the parser returns `(None, None)` without
raising, and a warning diagnostic is logged while processing continues.  For
inputs rejected by the `strptime` format pattern (e.g. day `32`) the
diagnostic contains the offending composed date string; for calendar-range
failures (e.g. June 31) the diagnostic is the range message without the
substrings. -/
theorem C6_amended :
    (∀ t g, searchGroups t = some g → parse_event_datetime t = (none, none) →
      (parse_event_datetime_log t).2 ≠ []) ∧
    parse_event_datetime_log ("June 32, 2025, 4 p.m. - 6 p.m.".data) =
      ((none, none),
       [warnPrefix ++ timeDataMsg ("June 32, 2025 4:00 PM".data)]) ∧
    containsSub ("June 32, 2025 4:00 PM".data)
      (warnPrefix ++ timeDataMsg ("June 32, 2025 4:00 PM".data)) = true ∧
    parse_event_datetime_log ("June 31, 2025, 4 p.m. - 6 p.m.".data) =
      ((none, none), [warnPrefix ++ dayRangeMsg]) := by
  refine ⟨fun t g hg hnone => ?_, by decide, by decide, by decide⟩
  have hpl : parse_event_datetime_log t = handleGroups englishMonths g :=
    parse_log_some englishMonths hg
  have hp : parse_event_datetime t = (handleGroups englishMonths g).1 :=
    congrArg Prod.fst hpl
  rw [hpl]
  unfold handleGroups at hp ⊢
  cases hS : strptimeFmt englishMonths
      (composeSide (dateStrOf g) g.startTime g.startAp) with
  | error m => simp
  | ok sdt =>
    cases hE : strptimeFmt englishMonths
        (composeSide (dateStrOf g) g.endTime g.endAp) with
    | error m => simp
    | ok edt =>
      rw [hS, hE] at hp
      simp only [] at hp
      rw [hnone] at hp
      exact absurd hp (by simp)

/-- C8: only the first (leftmost) regex match is used: any search result
comes from the leftmost position where the pattern matches, with every
earlier position failing; the parse result is a function of that match alone
(texts with equal search results parse equally); and on a concrete
two-phrase text the result equals that of the first phrase alone. -/
theorem C8_first_match :
    (∀ t g, searchGroups t = some g → ∃ n, matchAt (t.drop n) = some g ∧
      ∀ m, m < n → matchAt (t.drop m) = none) ∧
    (∀ t u, searchGroups t = searchGroups u →
      parse_event_datetime t = parse_event_datetime u) ∧
    parse_event_datetime
      ("Foo June 1, 2025, 4 p.m. - 6 p.m. and July 2, 2025, 1 p.m. - 2 p.m.".data) =
      parse_event_datetime ("June 1, 2025, 4 p.m. - 6 p.m.".data) := by
  refine ⟨fun t g h => searchGroups_first h, fun t u h => ?_, by decide⟩
  unfold parse_event_datetime parse_event_datetime_loc
    parse_event_datetime_log_loc
  rw [h]

theorem C8_witness :
    (∃ n, matchAt (exampleHyphen.drop n) =
        some ⟨"June".data, ['1', '9'], ['2', '0', '2', '5'], ['4'], 'p',
          ['6'], 'p'⟩ ∧
      ∀ m, m < n → matchAt (exampleHyphen.drop m) = none) ∧
    parse_event_datetime exampleHyphen =
      parse_event_datetime ("zzz ".data ++ exampleHyphen) :=
  ⟨C8_first_match.1 exampleHyphen
    ⟨"June".data, ['1', '9'], ['2', '0', '2', '5'], ['4'], 'p', ['6'], 'p'⟩
    (by decide),
   C8_first_match.2.1 exampleHyphen ("zzz ".data ++ exampleHyphen) (by decide)⟩

/-- The batch loop of `generate_calendar` (lines 97-124), with the event
collection modelled as the unordered contents of the ics `calendar.events`
set.  For a batch of N entries of which K fail to parse: the final contents
are exactly the multiset of events built from the surviving entries — every
survivor contributes its own element, so nothing is deduplicated and
duplicating an entry doubles its events — `events_processed` counts the
survivors, `events_skipped` counts the K failures, the counts sum to N, and
the collection holds exactly N − K = processed events.  No statement is made
about iteration order of the set, which the program does not determine. -/
theorem generate_calendar_counts :
    (∀ entries : List RawEntry,
      (generate_calendar_loop entries).1 = ↑(entries.filterMap eventOf) ∧
      (generate_calendar_loop entries).2.1 =
        (entries.filter entrySucceeds).length ∧
      (generate_calendar_loop entries).2.2 =
        (entries.filter (fun en => !entrySucceeds en)).length ∧
      (generate_calendar_loop entries).2.1 +
        (generate_calendar_loop entries).2.2 = entries.length ∧
      Multiset.card (generate_calendar_loop entries).1 =
        entries.length - (generate_calendar_loop entries).2.2) ∧
    (∀ en : RawEntry, Multiset.card (generate_calendar_loop [en, en]).1 =
      2 * Multiset.card (generate_calendar_loop [en]).1) := by
  have main : ∀ entries : List RawEntry,
      generate_calendar_loop entries =
        (↑(entries.filterMap eventOf),
         (entries.filter entrySucceeds).length,
         (entries.filter (fun en => !entrySucceeds en)).length) := by
    intro entries
    unfold generate_calendar_loop
    rw [loop_foldl entries 0 0 0]
    simp
  refine ⟨fun entries => ?_, fun en => ?_⟩
  · rw [main entries]
    have hsum := filter_split_length entrySucceeds entries
    have hlen := filterMap_eventOf_length entries
    refine ⟨rfl, rfl, rfl, hsum, ?_⟩
    simp only [Multiset.coe_card]
    omega
  · rw [main [en, en], main [en]]
    simp only [Multiset.coe_card, List.filterMap]
    cases he : eventOf en <;> simp [List.filterMap_cons, he]

/-- C4: for every successfully parsed phrase, both returned instants carry
the named civil zone `"America/Montreal"` (an Eastern-Canada IANA zone with
seasonal rules, not a fixed offset), both fall on the same local calendar
date, and that date is the one written in the phrase: the year and day are
the numeric values of the captured digit strings and the month is the index
of the English month name that matches the captured name
case-insensitively. -/
theorem C4_same_date_tz (t : List Char) (s e : ZonedDateTime)
    (h : parse_event_datetime t = (some s, some e)) :
    s.tz = "America/Montreal" ∧ e.tz = "America/Montreal" ∧
    s.year = e.year ∧ s.month = e.month ∧ s.day = e.day ∧
    ∃ g, searchGroups t = some g ∧ s.year = natOfDigits g.yearStr ∧
      s.day = natOfDigits g.dayStr ∧
      ∃ name, englishMonths[s.month - 1]? = some name ∧
        lowerEq name g.monthName = true := by
  obtain ⟨g, hg, htz1, htz2, hy, hm, hd, _, _, hmon, hyv, hdv, _, _, _, _⟩ :=
    parse_ok_fields h
  exact ⟨htz1, htz2, hy, hm, hd, g, hg, hyv, hdv, hmon⟩

theorem C4_witness :
    juneStart.tz = "America/Montreal" ∧ juneEnd.tz = "America/Montreal" ∧
    juneStart.year = juneEnd.year ∧ juneStart.month = juneEnd.month ∧
    juneStart.day = juneEnd.day ∧
    ∃ g, searchGroups exampleHyphen = some g ∧
      juneStart.year = natOfDigits g.yearStr ∧
      juneStart.day = natOfDigits g.dayStr ∧
      ∃ name, englishMonths[juneStart.month - 1]? = some name ∧
        lowerEq name g.monthName = true :=
  C4_same_date_tz exampleHyphen juneStart juneEnd (by decide)

theorem C6_witness :
    (parse_event_datetime_log ("June 31, 2025, 4 p.m. - 6 p.m.".data)).2 ≠ [] :=
  C6_amended.1 ("June 31, 2025, 4 p.m. - 6 p.m.".data)
    ⟨"June".data, ['3', '1'], ['2', '0', '2', '5'], ['4'], 'p', ['6'], 'p'⟩
    (by decide) (by decide)
